import Mathlib

/-!
Shallow embedding of the NovelAI_Pixu_Naiscript userscript
(`src/core.ts`, `src/storage.ts`).

The script keeps a per-story list of image-slot records (`Entry`) in host
key-value storage and mirrors them as live editor widgets.  Host-side
effects (storage writes, widget creation/disposal, toasts) are recorded as
an explicit event list; the in-memory `Map` from entry id to widget handle
is modelled as an association list in insertion order, exactly the
iteration order of a JS `Map`.  Handles themselves are opaque, modelled as
natural numbers drawn from a fresh-handle counter.  Nondeterministic host
inputs (the current selection, the document scan, `api.v1.story.id()`,
`Math.random()`-based `uid()`) are passed in as parameters.
-/

namespace Pixu

/-- A stored image-slot record (`Entry` in `types.ts`).  `storyId` is
optional in the source (`storyId?: string`), hence `Option String`. -/
structure Entry where
  id : String
  storyId : Option String
  sectionId : Int
  order : Int
deriving DecidableEq, Repr

/-- Host-side effects an operation performs, in order. -/
inductive Event where
  | setEntries (entries : List Entry)
  | dispose (handle : Nat)
  | create (entry : Entry) (handle : Nat)
  | toast (msg : String)
deriving DecidableEq, Repr

/-- Association-list model of a JS `Map` (keys in insertion order).
`Map.prototype.set`: overwrite in place when the key is present,
append otherwise. -/
def mapSet {κ ν : Type} [BEq κ] (m : List (κ × ν)) (k : κ) (v : ν) :
    List (κ × ν) :=
  if m.any (fun p => p.1 == k) then
    m.map (fun p => if p.1 == k then (k, v) else p)
  else
    m ++ [(k, v)]

/-- `Map.prototype.get` (first binding of the key). -/
def mapGet {κ ν : Type} [BEq κ] (m : List (κ × ν)) (k : κ) : Option ν :=
  (m.find? (fun p => p.1 == k)).map (fun p => p.2)

/-- `Map.prototype.delete`. -/
def mapDelete {κ ν : Type} [BEq κ] (m : List (κ × ν)) (k : κ) :
    List (κ × ν) :=
  m.filter (fun p => !(p.1 == k))

/-- In-memory widget state: the `widgetHandles` map plus a counter
supplying fresh opaque handles. -/
structure WState where
  handles : List (String × Nat)
  nextHandle : Nat
deriving DecidableEq, Repr

/-- Whole script state: persisted entry list (storage content after the
operation's initial `getEntries()` read) and the widget map. -/
structure Sys where
  stored : List Entry
  w : WState
deriving DecidableEq, Repr

/-- Result of `getMoveInfo` in `core.ts`. -/
structure MoveInfo where
  canMoveUp : Bool
  canMoveDown : Bool
  prevSectionId : Option Int
  nextSectionId : Option Int
deriving DecidableEq, Repr

/-- `getMoveInfo(sections, sectionId)` from `core.ts`: locate the section
in the scanned document (`findIndex`) and report its neighbours.  The
scan is modelled by its list of `sectionId`s, the only field read. -/
def getMoveInfo (sections : List Int) (sectionId : Int) : MoveInfo :=
  match sections.findIdx? (fun s => s == sectionId) with
  | none => ⟨false, false, none, none⟩
  | some index =>
    let prevSectionId := if 0 < index then sections[index - 1]? else none
    let nextSectionId :=
      if index < sections.length - 1 then sections[index + 1]? else none
    ⟨prevSectionId.isSome, nextSectionId.isSome, prevSectionId, nextSectionId⟩

/-- The order assigned to a slot added to `sectionId`:
`inSection.length ? Math.max(...inSection.map(e => e.order)) + 1 : 0`.
This computation appears verbatim in both `addImageHere` and
`moveEntry`. -/
def nextOrder (entries : List Entry) (sectionId : Int) : Int :=
  match ((entries.filter (fun e => e.sectionId == sectionId)).map
      Entry.order).max? with
  | some m => m + 1
  | none => 0

/-- `createWidget` in `core.ts`, restricted to its state effect: allocate
a handle for the entry's widget and store it under the entry id.  (The
widget's visual content, built from `getMoveInfo`, is host-rendered UI
and carries no script state.) -/
def createWidget (e : Entry) (w : WState) : WState × Event :=
  (⟨mapSet w.handles e.id w.nextHandle, w.nextHandle + 1⟩,
   Event.create e w.nextHandle)

/-- First loop of `syncWidgets`: walk the handle map and dispose/delete
every handle whose entry id is no longer stored. -/
def syncDisposePhase (entryIds : List String) :
    List (String × Nat) → List (String × Nat) × List Event
  | [] => ([], [])
  | (k, h) :: rest =>
    let (m, evs) := syncDisposePhase entryIds rest
    if entryIds.contains k then ((k, h) :: m, evs)
    else (m, Event.dispose h :: evs)

/-- Second loop of `syncWidgets`: create a widget for every stored entry
whose id has no handle yet. -/
def syncCreatePhase : List Entry → WState → WState × List Event
  | [], w => (w, [])
  | e :: rest, w =>
    if (mapGet w.handles e.id).isSome then syncCreatePhase rest w
    else
      let (w1, ev) := createWidget e w
      let (w2, evs) := syncCreatePhase rest w1
      (w2, ev :: evs)

/-- `syncWidgets` from `core.ts`. -/
def syncWidgets (s : Sys) : Sys × List Event :=
  let entryIds := s.stored.map Entry.id
  let (m1, evs1) := syncDisposePhase entryIds s.w.handles
  let (w2, evs2) := syncCreatePhase s.stored ⟨m1, s.w.nextHandle⟩
  (⟨s.stored, w2⟩, evs1 ++ evs2)

/-- `addImageHere` from `core.ts`.  `sel` is
`(await api.v1.editor.selection.get())?.from?.sectionId`, flattened to
`none` when the selection is absent or its section id is
undefined/null; `storyId` is `api.v1.story.id()`; `newId` is the
`uid()` output. -/
def addImageHere (sel : Option Int) (storyId : String) (newId : String)
    (s : Sys) : Sys × List Event :=
  match sel with
  | none =>
    (s, [Event.toast
      "Couldn't detect the current section. Click inside the story text first."])
  | some sectionId =>
    let entries := s.stored
    let next : Entry := ⟨newId, some storyId, sectionId, nextOrder entries sectionId⟩
    let stored1 := entries ++ [next]
    let (w1, ev) := createWidget next s.w
    (⟨stored1, w1⟩, [Event.setEntries stored1, ev])

/-- `clearEntries` from `core.ts`. -/
def clearEntries (s : Sys) : Sys × List Event :=
  (⟨[], ⟨[], s.w.nextHandle⟩⟩,
   Event.setEntries [] ::
     (s.w.handles.map (fun p => Event.dispose p.2) ++
      [Event.toast "Cleared saved image slots for this story."]))

/-- `removeEntry` from `core.ts`. -/
def removeEntry (entryId : String) (s : Sys) : Sys × List Event :=
  match s.stored.find? (fun e => e.id == entryId) with
  | none => (s, [])
  | some _ =>
    let nextEntries := s.stored.filter (fun e => !(e.id == entryId))
    match mapGet s.w.handles entryId with
    | some h =>
      (⟨nextEntries, ⟨mapDelete s.w.handles entryId, s.w.nextHandle⟩⟩,
       [Event.setEntries nextEntries, Event.dispose h])
    | none => (⟨nextEntries, s.w⟩, [Event.setEntries nextEntries])

/-- Move direction. -/
inductive Dir where
  | up
  | down
deriving DecidableEq, Repr

/-- `direction === "up" ? moveInfo.prevSectionId : moveInfo.nextSectionId`. -/
def dirTarget (dir : Dir) (info : MoveInfo) : Option Int :=
  match dir with
  | .up => info.prevSectionId
  | .down => info.nextSectionId

/-- `moveEntry` from `core.ts`: re-home the slot onto the adjacent
paragraph, dispose its widget and create a fresh one at the new anchor. -/
def moveEntry (entryId : String) (dir : Dir) (sections : List Int)
    (s : Sys) : Sys × List Event :=
  match s.stored.find? (fun e => e.id == entryId) with
  | none => (s, [])
  | some entry =>
    match dirTarget dir (getMoveInfo sections entry.sectionId) with
    | none => (s, [])
    | some targetSectionId =>
      let updatedEntry : Entry :=
        { entry with sectionId := targetSectionId
                     order := nextOrder s.stored targetSectionId }
      let nextEntries :=
        s.stored.map (fun e => if e.id == entryId then updatedEntry else e)
      let (handles1, disposeEvs) :=
        match mapGet s.w.handles entryId with
        | some h => (mapDelete s.w.handles entryId, [Event.dispose h])
        | none => (s.w.handles, ([] : List Event))
      let (w1, cev) := createWidget updatedEntry ⟨handles1, s.w.nextHandle⟩
      (⟨nextEntries, w1⟩,
       Event.setEntries nextEntries :: disposeEvs ++ [cev])

/-! ## storage.ts -/

/-- Raw per-story storage slot for `KEY_ENTRIES`: `none` models
null/undefined, read back as `v ?? []`. -/
abbrev RawStore := Option (List Entry)

/-- Decoded content of the storage slot (`v ?? []`). -/
def decodeStore (raw : RawStore) : List Entry := raw.getD []

/-- `getEntries()` in the plain revision (`src/unnamed/part_002`). -/
def getEntriesPlain (raw : RawStore) : List Entry := raw.getD []

/-- `setEntries(entries)`: overwrite the storage slot wholesale. -/
def setEntriesStore (entries : List Entry) : RawStore := some entries

/-- `!entry.storyId` — JS falsiness of the optional field: undefined,
null, or the empty string. -/
def storyIdFalsy (e : Entry) : Bool :=
  match e.storyId with
  | none => true
  | some s => s == ""

/-- `{ ...entry, storyId: entry.storyId ?? storyId }` (nullish
coalescing replaces only undefined/null, not the empty string). -/
def backfillEntry (storyId : String) (e : Entry) : Entry :=
  { e with storyId := some (e.storyId.getD storyId) }

/-- `getEntries()` in the backfill revision (`src/unnamed/part_001`):
returns the entry list and, when some entry had a falsy `storyId`, the
rewritten list it persisted. -/
def getEntriesBackfill (raw : RawStore) (storyId : String) :
    List Entry × RawStore :=
  let entries := raw.getD []
  if entries.any storyIdFalsy then
    let updated := entries.map (backfillEntry storyId)
    (updated, some updated)
  else
    (entries, none)

/-- `setEntries(await getEntries())`, plain revision: final storage state
(the backfill write, when any, is overwritten by the same list). -/
def roundTripPlain (raw : RawStore) : RawStore :=
  setEntriesStore (getEntriesPlain raw)

/-- `setEntries(await getEntries())`, backfill revision. -/
def roundTripBackfill (raw : RawStore) (storyId : String) : RawStore :=
  setEntriesStore (getEntriesBackfill raw storyId).1

/-! ## getOrderedEntries (storage.ts) -/

/-- `Number.MAX_SAFE_INTEGER`, the sentinel rank for entries whose
section is not in the scan. -/
def maxSafeInteger : Nat := 9007199254740991

/-- The loop body of `buildSectionIndex`: `sectionIndex.set(sections[i].sectionId, i)`
for each position, threading the running index. -/
def buildSectionIndexFrom (i : Nat) :
    List Int → List (Int × Nat) → List (Int × Nat)
  | [], m => m
  | sid :: rest, m => buildSectionIndexFrom (i + 1) rest (mapSet m sid i)

/-- `buildSectionIndex(sections)` from `storage.ts`. -/
def buildSectionIndex (sections : List Int) : List (Int × Nat) :=
  buildSectionIndexFrom 0 sections []

/-- `sectionIndex.get(e.sectionId) ?? Number.MAX_SAFE_INTEGER`. -/
def sectionRank (sections : List Int) (sectionId : Int) : Nat :=
  (mapGet (buildSectionIndex sections) sectionId).getD maxSafeInteger

/-- The sort comparator of `getOrderedEntries`, as the relation
"compares less-or-equal" (`cmp(a, b) <= 0`):
`if (ai !== bi) return ai - bi; return a.order - b.order`. -/
def entryLE (sections : List Int) (a b : Entry) : Bool :=
  if sectionRank sections a.sectionId ≠ sectionRank sections b.sectionId then
    decide (sectionRank sections a.sectionId < sectionRank sections b.sectionId)
  else
    decide (a.order ≤ b.order)

/-- `getOrderedEntries(entries)` from `storage.ts`:
`[...entries].sort(cmp)` — a stable sort by the comparator (JS `sort`
is stable per ES2019), with the document scan passed in. -/
def getOrderedEntries (sections : List Int) (entries : List Entry) :
    List Entry :=
  entries.mergeSort (entryLE sections)

/-! ## Operation sequences -/

/-- One user-level mutation, with the host inputs it consumed. -/
inductive Op where
  | add (sel : Option Int) (storyId : String) (newId : String)
  | remove (entryId : String)
  | move (entryId : String) (dir : Dir) (sections : List Int)
  | clear
deriving DecidableEq, Repr

/-- Apply one operation. -/
def applyOp (s : Sys) : Op → Sys × List Event
  | .add sel storyId newId => addImageHere sel storyId newId s
  | .remove entryId => removeEntry entryId s
  | .move entryId dir sections => moveEntry entryId dir sections s
  | .clear => clearEntries s

/-- Run a sequence of operations. -/
def runOps (s : Sys) : List Op → Sys
  | [] => s
  | op :: rest => runOps (applyOp s op).1 rest

/-- Initial state: empty storage, no widgets. -/
def initSys : Sys := ⟨[], ⟨[], 0⟩⟩

/-- A successful `add` consumes a `uid()` output not already used by a
stored entry. -/
def freshFor (s : Sys) : Op → Bool
  | .add (some _) _ newId => !((s.stored.map Entry.id).contains newId)
  | _ => true

/-- Along a run, every `uid()` output is fresh for the state it meets. -/
def freshIds (s : Sys) : List Op → Bool
  | [] => true
  | op :: rest => freshFor s op && freshIds (applyOp s op).1 rest

/-- The entry a successful `addImageHere` appends
(`{ id: uid(), storyId, sectionId, order: nextOrder }`). -/
def addedEntry (entries : List Entry) (sectionId : Int)
    (storyId newId : String) : Entry :=
  ⟨newId, some storyId, sectionId, nextOrder entries sectionId⟩

/-- Storage content after a sequence of successful adds anchored to one
paragraph, each consuming a `(storyId, uid)` pair. -/
def addSeq (entries : List Entry) (sectionId : Int) :
    List (String × String) → List Entry
  | [] => entries
  | (st, nid) :: rest =>
    addSeq (entries ++ [addedEntry entries sectionId st nid]) sectionId rest

/-- The `order` values assigned by such a sequence of adds, in order. -/
def assignedOrders (entries : List Entry) (sectionId : Int) :
    List (String × String) → List Int
  | [] => []
  | (st, nid) :: rest =>
    nextOrder entries sectionId ::
      assignedOrders (entries ++ [addedEntry entries sectionId st nid])
        sectionId rest

/-! ## Helper lemmas -/

theorem le_of_mem_max? {l : List Int} {m : Int} (h : l.max? = some m) :
    ∀ x ∈ l, x ≤ m :=
  (List.max?_le_iff (fun _ _ _ => max_le_iff) h).mp le_rfl

theorem order_lt_nextOrder (entries : List Entry) (sid : Int) :
    ∀ e ∈ entries, e.sectionId = sid → e.order < nextOrder entries sid := by
  intro e he hsec
  have hmem : e.order ∈
      (entries.filter (fun e => e.sectionId == sid)).map Entry.order :=
    List.mem_map_of_mem _ (by simp [List.mem_filter, he, hsec])
  cases hmax :
      ((entries.filter (fun e => e.sectionId == sid)).map Entry.order).max? with
  | none =>
    rw [List.max?_eq_none_iff] at hmax
    rw [hmax] at hmem
    cases hmem
  | some m =>
    have hle := le_of_mem_max? hmax _ hmem
    unfold nextOrder
    rw [hmax]
    exact Int.lt_add_one_iff.mpr hle

theorem assigned_gt (sid : Int) :
    ∀ (ps : List (String × String)) (entries : List Entry) (e : Entry),
      e ∈ entries → e.sectionId = sid →
      ∀ o ∈ assignedOrders entries sid ps, e.order < o := by
  intro ps
  induction ps with
  | nil =>
    intro entries e _ _ o ho
    simp [assignedOrders] at ho
  | cons p rest ih =>
    intro entries e he hs o ho
    obtain ⟨st, nid⟩ := p
    simp only [assignedOrders, List.mem_cons] at ho
    rcases ho with rfl | ho
    · exact order_lt_nextOrder entries sid e he hs
    · exact ih (entries ++ [addedEntry entries sid st nid]) e
        (List.mem_append_left _ he) hs o ho

theorem assigned_pairwise (sid : Int) :
    ∀ (ps : List (String × String)) (entries : List Entry),
      (assignedOrders entries sid ps).Pairwise (· < ·) := by
  intro ps
  induction ps with
  | nil => intro entries; simp [assignedOrders]
  | cons p rest ih =>
    intro entries
    obtain ⟨st, nid⟩ := p
    simp only [assignedOrders]
    refine List.Pairwise.cons ?_ (ih _)
    intro o ho
    have := assigned_gt sid rest (entries ++ [addedEntry entries sid st nid])
      (addedEntry entries sid st nid)
      (List.mem_append_right _ (List.mem_singleton.mpr rfl)) rfl o ho
    simpa [addedEntry] using this

theorem runOps_adds (sid : Int) :
    ∀ (ps : List (String × String)) (s : Sys),
      (runOps s (ps.map (fun p => Op.add (some sid) p.1 p.2))).stored =
        addSeq s.stored sid ps := by
  intro ps
  induction ps with
  | nil => intro s; simp [runOps, addSeq]
  | cons p rest ih =>
    intro s
    obtain ⟨st, nid⟩ := p
    simp only [List.map_cons, runOps, applyOp, addImageHere, addSeq]
    exact ih ⟨s.stored ++ [addedEntry s.stored sid st nid], _⟩

theorem backfillEntry_idem (storyId : String) (e : Entry) :
    backfillEntry storyId (backfillEntry storyId e) = backfillEntry storyId e := by
  simp [backfillEntry]

theorem backfill_of_not_falsy (storyId : String) (e : Entry)
    (h : storyIdFalsy e = false) : backfillEntry storyId e = e := by
  cases hs : e.storyId with
  | none =>
    exfalso
    have : storyIdFalsy e = true := by simp only [storyIdFalsy, hs]
    rw [this] at h
    cases h
  | some s =>
    simp only [backfillEntry, hs, Option.getD_some]
    rw [← hs]

theorem map_backfill_of_no_falsy (storyId : String) (l : List Entry)
    (h : l.all (fun e => !(storyIdFalsy e)) = true) :
    l.map (backfillEntry storyId) = l := by
  have hc : ∀ e ∈ l, backfillEntry storyId e = e := by
    intro e he
    have h2 := (List.all_eq_true.mp h) e he
    exact backfill_of_not_falsy storyId e (by simpa using h2)
  rw [List.map_congr_left hc]
  simp

theorem decode_roundTripBackfill (raw : RawStore) (storyId : String) :
    decodeStore (roundTripBackfill raw storyId) =
      if (decodeStore raw).any storyIdFalsy then
        (decodeStore raw).map (backfillEntry storyId)
      else decodeStore raw := by
  simp only [decodeStore]
  by_cases h : (raw.getD []).any storyIdFalsy = true
  · simp [roundTripBackfill, getEntriesBackfill, setEntriesStore, decodeStore, h]
  · simp only [Bool.not_eq_true] at h
    simp [roundTripBackfill, getEntriesBackfill, setEntriesStore, decodeStore, h]

theorem nextOrder_spec (entries : List Entry) (sid : Int) :
    (entries.filter (fun e => e.sectionId == sid) = [] →
      nextOrder entries sid = 0) ∧
    (∀ m, ((entries.filter (fun e => e.sectionId == sid)).map
        Entry.order).max? = some m →
      nextOrder entries sid = m + 1 ∧
      ∀ e ∈ entries, e.sectionId = sid → e.order ≤ m) := by
  constructor
  · intro h
    simp [nextOrder, h]
  · intro m hm
    refine ⟨by unfold nextOrder; rw [hm], ?_⟩
    intro e he hs
    exact le_of_mem_max? hm _
      (List.mem_map_of_mem _ (by simp [List.mem_filter, he, hs]))

theorem mapHas_eq_isSome {κ ν : Type} [BEq κ] (m : List (κ × ν)) (k : κ) :
    m.any (fun p => p.1 == k) = (mapGet m k).isSome := by
  induction m with
  | nil => rfl
  | cons p rest ih =>
    by_cases h : (p.1 == k) = true
    · simp [mapGet, List.find?_cons, h]
    · simp only [Bool.not_eq_true] at h
      simp [mapGet, List.find?_cons, h] at ih ⊢
      exact ih

theorem mapGet_eq_none_iff_find? {κ ν : Type} [BEq κ] (m : List (κ × ν))
    (k : κ) : mapGet m k = none ↔ m.find? (fun p => p.1 == k) = none := by
  simp [mapGet]

theorem mapGet_append_of_none {κ ν : Type} [BEq κ] {m m' : List (κ × ν)}
    {k : κ} (h : mapGet m k = none) :
    mapGet (m ++ m') k = mapGet m' k := by
  rw [mapGet, List.find?_append, (mapGet_eq_none_iff_find? m k).mp h]
  rfl

theorem mapGet_append_of_some {κ ν : Type} [BEq κ] {m m' : List (κ × ν)}
    {k : κ} {v : ν} (h : mapGet m k = some v) :
    mapGet (m ++ m') k = some v := by
  rw [mapGet, List.find?_append]
  simp only [mapGet, Option.map_eq_some'] at h
  obtain ⟨p, hp, hv⟩ := h
  rw [hp]
  simp [hv]

theorem mapGet_singleton_same {κ ν : Type} [BEq κ] [LawfulBEq κ] (k : κ)
    (v : ν) : mapGet [(k, v)] k = some v := by
  simp [mapGet, List.find?_cons]

theorem mapGet_singleton_ne {κ ν : Type} [BEq κ] {k k' : κ} (v : ν)
    (h : (k'== k) = false) : mapGet [(k', v)] k = none := by
  simp [mapGet, List.find?_cons, h]

theorem mapSet_absent {κ ν : Type} [BEq κ] {m : List (κ × ν)} {k : κ}
    (v : ν) (h : m.any (fun p => p.1 == k) = false) :
    mapSet m k v = m ++ [(k, v)] := by
  simp [mapSet, h]

theorem mapGet_of_mem_nodup {κ ν : Type} [BEq κ] [LawfulBEq κ]
    {m : List (κ × ν)} (hnd : (m.map Prod.fst).Nodup) {p : κ × ν}
    (hp : p ∈ m) : mapGet m p.1 = some p.2 := by
  induction m with
  | nil => cases hp
  | cons q rest ih =>
    rcases List.mem_cons.mp hp with rfl | hp'
    · simp [mapGet, List.find?_cons]
    · have hne : (q.1 == p.1) = false := by
        simp only [List.map_cons, List.nodup_cons] at hnd
        have : p.1 ∈ rest.map Prod.fst := List.mem_map_of_mem Prod.fst hp'
        simp only [beq_eq_false_iff_ne, ne_eq]
        intro hq
        exact hnd.1 (hq ▸ this)
      simp only [List.map_cons, List.nodup_cons] at hnd
      simp only [mapGet, List.find?_cons, hne]
      exact ih hnd.2 hp'

theorem syncDisposePhase_fst (ids : List String) (hs : List (String × Nat)) :
    (syncDisposePhase ids hs).1 = hs.filter (fun p => ids.contains p.1) := by
  induction hs with
  | nil => rfl
  | cons p rest ih =>
    obtain ⟨k, h⟩ := p
    by_cases hc : k ∈ ids
    · simp [syncDisposePhase, hc, ih, List.filter_cons]
    · simp [syncDisposePhase, hc, ih, List.filter_cons]

theorem syncDisposePhase_dispose (ids : List String)
    (hs : List (String × Nat)) :
    ∀ p ∈ hs, p.1 ∉ ids →
      Event.dispose p.2 ∈ (syncDisposePhase ids hs).2 := by
  induction hs with
  | nil => intro p hp; cases hp
  | cons q rest ih =>
    intro p hp hcon
    obtain ⟨k, h⟩ := q
    rcases List.mem_cons.mp hp with rfl | hp'
    · simp [syncDisposePhase, hcon]
    · by_cases hc : k ∈ ids
      · simpa [syncDisposePhase, hc] using ih p hp' hcon
      · have hcf : ids.contains k = false := by
          cases hcc : ids.contains k with
          | false => rfl
          | true => exact absurd (List.mem_of_elem_eq_true hcc) hc
        simp only [syncDisposePhase, hcf, Bool.false_eq_true, if_false]
        exact List.mem_cons_of_mem _ (ih p hp' hcon)

theorem filter_contains_cons_pos (ids : List String) (k : String) (v : Nat)
    (rest : List (String × Nat)) (hc : k ∈ ids) :
    ((k, v) :: rest).filter (fun p => ids.contains p.1) =
      (k, v) :: rest.filter (fun p => ids.contains p.1) := by
  simp [List.filter_cons, hc]

theorem filter_contains_cons_neg (ids : List String) (k : String) (v : Nat)
    (rest : List (String × Nat)) (hc : k ∉ ids) :
    ((k, v) :: rest).filter (fun p => ids.contains p.1) =
      rest.filter (fun p => ids.contains p.1) := by
  simp [List.filter_cons, hc]

theorem mapGet_filter_kept (hs : List (String × Nat)) (ids : List String)
    (k : String) (hk : k ∈ ids) :
    mapGet (hs.filter (fun p => ids.contains p.1)) k = mapGet hs k := by
  induction hs with
  | nil => rfl
  | cons p rest ih =>
    obtain ⟨k', v⟩ := p
    by_cases hke : (k' == k) = true
    · have hmem : k' ∈ ids := by
        rw [eq_of_beq hke]
        exact hk
      rw [filter_contains_cons_pos ids k' v rest hmem]
      simp [mapGet, List.find?_cons, hke]
    · simp only [Bool.not_eq_true] at hke
      by_cases hc : k' ∈ ids
      · rw [filter_contains_cons_pos ids k' v rest hc]
        simp only [mapGet, List.find?_cons, hke, Bool.false_eq_true, if_false]
        exact ih
      · rw [filter_contains_cons_neg ids k' v rest hc, ih]
        simp only [mapGet, List.find?_cons, hke, Bool.false_eq_true, if_false]

theorem mapGet_filter_dropped (hs : List (String × Nat)) (ids : List String)
    (k : String) (hk : k ∉ ids) :
    mapGet (hs.filter (fun p => ids.contains p.1)) k = none := by
  induction hs with
  | nil => rfl
  | cons p rest ih =>
    obtain ⟨k', v⟩ := p
    by_cases hc : k' ∈ ids
    · have hke : (k' == k) = false := by
        simp only [beq_eq_false_iff_ne, ne_eq]
        intro h
        exact hk (h ▸ hc)
      rw [filter_contains_cons_pos ids k' v rest hc]
      simp only [mapGet, List.find?_cons, hke, Bool.false_eq_true, if_false]
      exact ih
    · rw [filter_contains_cons_neg ids k' v rest hc]
      exact ih

theorem mapGet_map_replace_self {κ ν : Type} [BEq κ] [LawfulBEq κ]
    (m : List (κ × ν)) (k : κ) (v : ν)
    (h : m.any (fun p => p.1 == k) = true) :
    mapGet (m.map (fun p => if p.1 == k then (k, v) else p)) k = some v := by
  induction m with
  | nil => cases h
  | cons p rest ih =>
    by_cases hp : (p.1 == k) = true
    · simp only [List.map_cons, hp, if_true]
      simp [mapGet, List.find?_cons]
    · simp only [List.map_cons, hp, Bool.false_eq_true, if_false]
      have h2 : rest.any (fun p => p.1 == k) = true := by
        simpa [List.any_cons, hp] using h
      simp only [mapGet, List.find?_cons, hp, Bool.false_eq_true, if_false]
      exact ih h2

theorem mapGet_map_replace_ne {κ ν : Type} [BEq κ] [LawfulBEq κ]
    (m : List (κ × ν)) (k k' : κ) (v : ν) (h : k' ≠ k) :
    mapGet (m.map (fun p => if p.1 == k' then (k', v) else p)) k =
      mapGet m k := by
  induction m with
  | nil => rfl
  | cons p rest ih =>
    by_cases hp : (p.1 == k') = true
    · have hpk : (p.1 == k) = false := by
        rw [beq_eq_false_iff_ne, eq_of_beq hp]
        exact h
      have hk2 : (k' == k) = false := by
        rw [beq_eq_false_iff_ne]
        exact h
      simp only [List.map_cons, hp, if_true]
      simp only [mapGet, List.find?_cons, hk2, hpk, Bool.false_eq_true, if_false]
      exact ih
    · simp only [List.map_cons, hp, Bool.false_eq_true, if_false]
      by_cases hpk : (p.1 == k) = true
      · simp [mapGet, List.find?_cons, hpk]
      · simp only [Bool.not_eq_true] at hpk
        simp only [mapGet, List.find?_cons, hpk, Bool.false_eq_true, if_false]
        exact ih

theorem mapGet_mapSet_self {κ ν : Type} [BEq κ] [LawfulBEq κ]
    (m : List (κ × ν)) (k : κ) (v : ν) :
    mapGet (mapSet m k v) k = some v := by
  unfold mapSet
  by_cases hany : m.any (fun p => p.1 == k) = true
  · rw [if_pos hany]
    exact mapGet_map_replace_self m k v hany
  · rw [if_neg hany]
    simp only [Bool.not_eq_true] at hany
    have hnone : mapGet m k = none := by
      have hh := mapHas_eq_isSome m k
      rw [hany] at hh
      cases hmg : mapGet m k with
      | none => rfl
      | some w => rw [hmg] at hh; cases hh
    rw [mapGet_append_of_none hnone]
    exact mapGet_singleton_same k v

theorem mapGet_mapSet_ne {κ ν : Type} [BEq κ] [LawfulBEq κ]
    (m : List (κ × ν)) (k k' : κ) (v : ν) (h : k' ≠ k) :
    mapGet (mapSet m k' v) k = mapGet m k := by
  unfold mapSet
  by_cases hany : m.any (fun p => p.1 == k') = true
  · rw [if_pos hany]
    exact mapGet_map_replace_ne m k k' v h
  · rw [if_neg hany]
    cases hm : mapGet m k with
    | some w => exact mapGet_append_of_some hm
    | none =>
      rw [mapGet_append_of_none hm]
      exact mapGet_singleton_ne _ (by rw [beq_eq_false_iff_ne]; exact h)

theorem bsif_not_mem (l : List Int) :
    ∀ (i : Nat) (m : List (Int × Nat)) (k : Int), k ∉ l →
      mapGet (buildSectionIndexFrom i l m) k = mapGet m k := by
  induction l with
  | nil => intro i m k _; rfl
  | cons sid rest ih =>
    intro i m k hk
    have h1 : k ∉ rest := fun hh => hk (List.mem_cons_of_mem _ hh)
    have h2 : sid ≠ k := fun hh => hk (by simp [hh])
    rw [buildSectionIndexFrom, ih (i + 1) _ k h1, mapGet_mapSet_ne m k sid i h2]

theorem bsif_mem (l : List Int) :
    ∀ (i : Nat) (m : List (Int × Nat)) (k : Int), k ∈ l →
      ∃ j, mapGet (buildSectionIndexFrom i l m) k = some j ∧ i ≤ j ∧
        j < i + l.length ∧ l[j - i]? = some k := by
  induction l with
  | nil => intro i m k hk; cases hk
  | cons sid rest ih =>
    intro i m k hk
    by_cases hkr : k ∈ rest
    · obtain ⟨j, hj1, hj2, hj3, hj4⟩ := ih (i + 1) (mapSet m sid i) k hkr
      refine ⟨j, hj1, by omega, by simp only [List.length_cons]; omega, ?_⟩
      have hji : j - i = (j - (i + 1)) + 1 := by omega
      rw [hji]
      simpa using hj4
    · have hks : k = sid := by
        rcases List.mem_cons.mp hk with hh | hh
        · exact hh
        · exact absurd hh hkr
      subst hks
      rw [buildSectionIndexFrom, bsif_not_mem rest (i + 1) (mapSet m k i) k hkr]
      exact ⟨i, mapGet_mapSet_self m k i, le_rfl, by simp, by simp⟩

theorem sectionRank_not_mem (sections : List Int) (sid : Int)
    (h : sid ∉ sections) : sectionRank sections sid = maxSafeInteger := by
  unfold sectionRank buildSectionIndex
  rw [bsif_not_mem sections 0 [] sid h]
  rfl

theorem sectionRank_mem (sections : List Int) (sid : Int) (h : sid ∈ sections) :
    sectionRank sections sid < sections.length ∧
    sections[sectionRank sections sid]? = some sid := by
  obtain ⟨j, hj1, _, hj3, hj4⟩ := bsif_mem sections 0 [] sid h
  unfold sectionRank buildSectionIndex
  rw [hj1]
  simp only [Option.getD_some]
  exact ⟨by omega, by simpa using hj4⟩

theorem entryLE_iff (sections : List Int) (a b : Entry) :
    entryLE sections a b = true ↔
      (sectionRank sections a.sectionId < sectionRank sections b.sectionId ∨
       (sectionRank sections a.sectionId = sectionRank sections b.sectionId ∧
        a.order ≤ b.order)) := by
  unfold entryLE
  by_cases h : sectionRank sections a.sectionId ≠ sectionRank sections b.sectionId
  · rw [if_pos h]
    simp only [decide_eq_true_eq]
    constructor
    · exact Or.inl
    · rintro (hlt | ⟨heq, _⟩)
      · exact hlt
      · exact absurd heq h
  · rw [if_neg h]
    simp only [decide_eq_true_eq]
    constructor
    · intro hle
      exact Or.inr ⟨not_ne_iff.mp h, hle⟩
    · rintro (hlt | ⟨_, hle⟩)
      · rw [not_ne_iff.mp h] at hlt
        exact absurd hlt (lt_irrefl _)
      · exact hle

theorem entryLE_total (sections : List Int) (a b : Entry) :
    (entryLE sections a b || entryLE sections b a) = true := by
  rcases Nat.lt_trichotomy (sectionRank sections a.sectionId)
      (sectionRank sections b.sectionId) with h | h | h
  · have hh : entryLE sections a b = true := (entryLE_iff sections a b).mpr (Or.inl h)
    simp [hh]
  · rcases le_total a.order b.order with h2 | h2
    · have hh : entryLE sections a b = true :=
        (entryLE_iff sections a b).mpr (Or.inr ⟨h, h2⟩)
      simp [hh]
    · have hh : entryLE sections b a = true :=
        (entryLE_iff sections b a).mpr (Or.inr ⟨h.symm, h2⟩)
      simp [hh]
  · have hh : entryLE sections b a = true := (entryLE_iff sections b a).mpr (Or.inl h)
    simp [hh]

theorem entryLE_trans (sections : List Int) (a b c : Entry)
    (h1 : entryLE sections a b = true) (h2 : entryLE sections b c = true) :
    entryLE sections a c = true := by
  rw [entryLE_iff] at h1 h2 ⊢
  rcases h1 with h1 | ⟨h1, h1o⟩ <;> rcases h2 with h2 | ⟨h2, h2o⟩
  · exact Or.inl (lt_trans h1 h2)
  · exact Or.inl (h2 ▸ h1)
  · exact Or.inl (h1 ▸ h2)
  · exact Or.inr ⟨h1.trans h2, le_trans h1o h2o⟩

theorem syncCreatePhase_preserves (es : List Entry) :
    ∀ (w : WState) (k : String) (v : Nat), mapGet w.handles k = some v →
      mapGet (syncCreatePhase es w).1.handles k = some v := by
  induction es with
  | nil => intro w k v h; exact h
  | cons e rest ih =>
    intro w k v h
    cases hmg : mapGet w.handles e.id with
    | some v0 =>
      simp only [syncCreatePhase, hmg, Option.isSome_some, if_true]
      exact ih w k v h
    | none =>
      simp only [syncCreatePhase, hmg, Option.isSome_none, Bool.false_eq_true,
        if_false]
      refine ih ⟨mapSet w.handles e.id w.nextHandle, w.nextHandle + 1⟩ k v ?_
      rw [mapSet_absent _ (by rw [mapHas_eq_isSome, hmg]; rfl)]
      exact mapGet_append_of_some h

theorem syncCreatePhase_none (es : List Entry) :
    ∀ (w : WState) (k : String), mapGet w.handles k = none →
      k ∉ es.map Entry.id →
      mapGet (syncCreatePhase es w).1.handles k = none := by
  induction es with
  | nil => intro w k h _; exact h
  | cons e rest ih =>
    intro w k h hk
    have hne : k ≠ e.id := fun hkk => hk (by simp [hkk])
    have hk2 : k ∉ rest.map Entry.id := fun hh => hk (by simp [hh])
    cases hmg : mapGet w.handles e.id with
    | some v0 =>
      simp only [syncCreatePhase, hmg, Option.isSome_some, if_true]
      exact ih w k h hk2
    | none =>
      simp only [syncCreatePhase, hmg, Option.isSome_none, Bool.false_eq_true,
        if_false]
      refine ih ⟨mapSet w.handles e.id w.nextHandle, w.nextHandle + 1⟩ k ?_ hk2
      rw [mapSet_absent _ (by rw [mapHas_eq_isSome, hmg]; rfl)]
      rw [mapGet_append_of_none h]
      exact mapGet_singleton_ne _ (by rw [beq_eq_false_iff_ne]; exact hne.symm)

theorem syncCreatePhase_covers (es : List Entry) :
    ∀ (w : WState), ∀ e ∈ es,
      ∃ v, mapGet (syncCreatePhase es w).1.handles e.id = some v := by
  induction es with
  | nil => intro w e he; cases he
  | cons e0 rest ih =>
    intro w e he
    cases hmg : mapGet w.handles e0.id with
    | some v0 =>
      rcases List.mem_cons.mp he with rfl | he'
      · exact ⟨v0, by
          simp only [syncCreatePhase, hmg, Option.isSome_some, if_true]
          exact syncCreatePhase_preserves rest w _ v0 hmg⟩
      · simp only [syncCreatePhase, hmg, Option.isSome_some, if_true]
        exact ih w e he'
    | none =>
      have habs : w.handles.any (fun p => p.1 == e0.id) = false := by
        rw [mapHas_eq_isSome, hmg]
        rfl
      simp only [syncCreatePhase, hmg, Option.isSome_none, Bool.false_eq_true,
        if_false]
      rcases List.mem_cons.mp he with rfl | he'
      · have h1 : mapGet (mapSet w.handles e.id w.nextHandle) e.id =
            some w.nextHandle := by
          rw [mapSet_absent _ habs, mapGet_append_of_none hmg,
            mapGet_singleton_same]
        exact ⟨w.nextHandle, syncCreatePhase_preserves rest _ _ _ h1⟩
      · exact ih ⟨mapSet w.handles e0.id w.nextHandle, w.nextHandle + 1⟩ e he'

theorem syncCreatePhase_creates (es : List Entry) :
    ∀ (w : WState), (es.map Entry.id).Nodup →
      ∀ e ∈ es, mapGet w.handles e.id = none →
      ∃ v, mapGet (syncCreatePhase es w).1.handles e.id = some v ∧
        Event.create e v ∈ (syncCreatePhase es w).2 ∧ w.nextHandle ≤ v := by
  induction es with
  | nil => intro w _ e he; cases he
  | cons e0 rest ih =>
    intro w hnd e he hnone
    simp only [List.map_cons, List.nodup_cons] at hnd
    rcases List.mem_cons.mp he with rfl | he'
    · simp only [syncCreatePhase, hnone, Option.isSome_none, Bool.false_eq_true,
        if_false]
      have habs : w.handles.any (fun p => p.1 == e.id) = false := by
        rw [mapHas_eq_isSome, hnone]
        rfl
      have h1 : mapGet (mapSet w.handles e.id w.nextHandle) e.id =
          some w.nextHandle := by
        rw [mapSet_absent _ habs, mapGet_append_of_none hnone,
          mapGet_singleton_same]
      refine ⟨w.nextHandle, syncCreatePhase_preserves rest _ _ _ h1, ?_, le_rfl⟩
      exact List.mem_cons_self _ _
    · cases hmg : mapGet w.handles e0.id with
      | some v0 =>
        simp only [syncCreatePhase, hmg, Option.isSome_some, if_true]
        exact ih w hnd.2 e he' hnone
      | none =>
        simp only [syncCreatePhase, hmg, Option.isSome_none, Bool.false_eq_true,
          if_false]
        have habs : w.handles.any (fun p => p.1 == e0.id) = false := by
          rw [mapHas_eq_isSome, hmg]
          rfl
        have hne : e0.id ≠ e.id := by
          intro hkk
          exact hnd.1 (hkk ▸ List.mem_map_of_mem Entry.id he')
        have h2 : mapGet (mapSet w.handles e0.id w.nextHandle) e.id = none := by
          rw [mapSet_absent _ habs, mapGet_append_of_none hnone]
          exact mapGet_singleton_ne _ (by rw [beq_eq_false_iff_ne]; exact hne)
        obtain ⟨v', hv1, hv2, hv3⟩ :=
          ih ⟨mapSet w.handles e0.id w.nextHandle, w.nextHandle + 1⟩ hnd.2 e he' h2
        exact ⟨v', hv1, List.mem_cons_of_mem _ hv2,
          le_trans (Nat.le_succ _) hv3⟩

theorem ids_after_op (s : Sys) (op : Op) (hfresh : freshFor s op = true)
    (hnd : (s.stored.map Entry.id).Nodup) :
    (((applyOp s op).1).stored.map Entry.id).Nodup := by
  cases op with
  | add sel storyId newId =>
    cases sel with
    | none => simpa [applyOp, addImageHere] using hnd
    | some sid =>
      have hnotin : newId ∉ s.stored.map Entry.id := by
        simpa [freshFor] using hfresh
      simp only [applyOp, addImageHere, List.map_append, List.map_cons,
        List.map_nil]
      rw [List.nodup_append]
      exact ⟨hnd, List.nodup_singleton _, by
        intro a ha hb
        simp only [List.mem_singleton] at hb
        exact hnotin (hb ▸ ha)⟩
  | remove entryId =>
    cases hfind : s.stored.find? (fun e => e.id == entryId) with
    | none => simpa [applyOp, removeEntry, hfind] using hnd
    | some entry =>
      have hsub : ((s.stored.filter (fun e => !(e.id == entryId))).map
          Entry.id).Sublist (s.stored.map Entry.id) :=
        (List.filter_sublist _).map Entry.id
      cases hmg : mapGet s.w.handles entryId with
      | none => simpa [applyOp, removeEntry, hfind, hmg] using hnd.sublist hsub
      | some h => simpa [applyOp, removeEntry, hfind, hmg] using hnd.sublist hsub
  | move entryId dir sections =>
    cases hfind : s.stored.find? (fun e => e.id == entryId) with
    | none => simpa [applyOp, moveEntry, hfind] using hnd
    | some entry =>
      have hid : entry.id = entryId := by simpa using List.find?_some hfind
      cases ht : dirTarget dir (getMoveInfo sections entry.sectionId) with
      | none => simpa [applyOp, moveEntry, hfind, ht] using hnd
      | some t =>
        have hmap : (s.stored.map (fun e => if e.id == entryId then
            ({ entry with sectionId := t, order := nextOrder s.stored t } : Entry)
            else e)).map Entry.id = s.stored.map Entry.id := by
          rw [List.map_map]
          apply List.map_congr_left
          intro e _
          by_cases hc : e.id = entryId
          · simp [Function.comp, hc, hid]
          · simp [Function.comp, hc]
        cases hmg : mapGet s.w.handles entryId with
        | none =>
          simp only [applyOp, moveEntry, hfind, ht, hmg]
          exact hmap ▸ hnd
        | some h =>
          simp only [applyOp, moveEntry, hfind, ht, hmg]
          exact hmap ▸ hnd
  | clear => simp [applyOp, clearEntries]

theorem freshIds_nodup :
    ∀ (ops : List Op) (s : Sys), (s.stored.map Entry.id).Nodup →
      freshIds s ops = true → (((runOps s ops).stored).map Entry.id).Nodup := by
  intro ops
  induction ops with
  | nil => intro s hnd _; simpa [runOps] using hnd
  | cons op rest ih =>
    intro s hnd hfresh
    simp only [freshIds, Bool.and_eq_true] at hfresh
    exact ih (applyOp s op).1 (ids_after_op s op hfresh.1 hnd) hfresh.2

/-! ## Claim theorems -/

/-- C7: when the selection cannot be mapped to a paragraph id,
`addImageHere` emits only a toast and returns with the stored list and
the widget-handle map unchanged: the result state is exactly the input
state and the only event is the user-visible toast. -/
theorem addImageHere_no_selection_aborts (storyId newId : String) (s : Sys) :
    addImageHere none storyId newId s =
      (s, [Event.toast
        "Couldn't detect the current section. Click inside the story text first."]) :=
  rfl

/-- C5: removing an entry id that is not stored is a silent no-op: the
state (stored list and widget map) is returned unchanged and no event —
in particular no `setEntries` write and no widget disposal — occurs. -/
theorem removeEntry_stale_noop (s : Sys) (entryId : String)
    (h : ∀ e ∈ s.stored, e.id ≠ entryId) :
    removeEntry entryId s = (s, []) := by
  have hfind : s.stored.find? (fun e => e.id == entryId) = none := by
    rw [List.find?_eq_none]
    intro e he
    simpa using h e he
  simp [removeEntry, hfind]

/-- Witness for C5 at a concrete state holding one entry. -/
theorem removeEntry_stale_noop_witness :
    removeEntry "b" ⟨[⟨"a", some "s", 1, 0⟩], ⟨[("a", 7)], 8⟩⟩ =
      (⟨[⟨"a", some "s", 1, 0⟩], ⟨[("a", 7)], 8⟩⟩, []) :=
  removeEntry_stale_noop _ _ (by decide)

/-- C6: `clearEntries` persists the empty list, empties the handle map,
and disposes every handle that was live, however many there were. -/
theorem clearEntries_spec (s : Sys) :
    (clearEntries s).1.stored = [] ∧
    (clearEntries s).1.w.handles = [] ∧
    Event.setEntries [] ∈ (clearEntries s).2 ∧
    (∀ p ∈ s.w.handles, Event.dispose p.2 ∈ (clearEntries s).2) := by
  refine ⟨rfl, rfl, List.mem_cons_self _ _, ?_⟩
  intro p hp
  simp only [clearEntries, List.mem_cons, List.mem_append, List.mem_map]
  exact Or.inr (Or.inl ⟨p, hp, rfl⟩)

/-- Witness for C6 at a concrete state with two live handles. -/
theorem clearEntries_spec_witness :
    (clearEntries ⟨[⟨"a", some "s", 1, 0⟩], ⟨[("a", 3), ("b", 4)], 5⟩⟩).1.stored = [] ∧
    (clearEntries ⟨[⟨"a", some "s", 1, 0⟩], ⟨[("a", 3), ("b", 4)], 5⟩⟩).1.w.handles = [] ∧
    Event.setEntries [] ∈ (clearEntries ⟨[⟨"a", some "s", 1, 0⟩], ⟨[("a", 3), ("b", 4)], 5⟩⟩).2 ∧
    (∀ p ∈ [("a", 3), ("b", 4)],
      Event.dispose p.2 ∈ (clearEntries ⟨[⟨"a", some "s", 1, 0⟩], ⟨[("a", 3), ("b", 4)], 5⟩⟩).2) :=
  clearEntries_spec ⟨[⟨"a", some "s", 1, 0⟩], ⟨[("a", 3), ("b", 4)], 5⟩⟩

/-- C8: `setEntries(await getEntries())` is a no-op on storage content in
the plain revision; in the backfill revision the content after the
round-trip is the stored content with missing `storyId`s filled in with
the current story's id, which is the identity when no stored entry
lacked a `storyId`, and a second round-trip then changes nothing. -/
theorem storage_roundTrip_spec (raw : RawStore) (storyId : String) :
    decodeStore (roundTripPlain raw) = decodeStore raw ∧
    decodeStore (roundTripBackfill raw storyId) =
      (decodeStore raw).map (backfillEntry storyId) ∧
    ((decodeStore raw).all (fun e => !(storyIdFalsy e)) = true →
      decodeStore (roundTripBackfill raw storyId) = decodeStore raw) ∧
    decodeStore (roundTripBackfill (roundTripBackfill raw storyId) storyId) =
      decodeStore (roundTripBackfill raw storyId) := by
  have h1 : decodeStore (roundTripPlain raw) = decodeStore raw := rfl
  have h2 : decodeStore (roundTripBackfill raw storyId) =
      (decodeStore raw).map (backfillEntry storyId) := by
    rw [decode_roundTripBackfill]
    by_cases h : (decodeStore raw).any storyIdFalsy
    · simp [h]
    · have hall : (decodeStore raw).all (fun e => !(storyIdFalsy e)) = true := by
        simp only [List.all_eq_true]
        intro e he
        have := (List.any_eq_false ..).mp (by simpa using h) e he
        simpa using this
      simp [h, map_backfill_of_no_falsy storyId _ hall]
  refine ⟨h1, h2, ?_, ?_⟩
  · intro hall
    rw [h2, map_backfill_of_no_falsy storyId _ hall]
  · rw [decode_roundTripBackfill (roundTripBackfill raw storyId) storyId]
    by_cases h : (decodeStore (roundTripBackfill raw storyId)).any storyIdFalsy
    · simp only [h, if_true]
      rw [h2, List.map_map]
      apply List.map_congr_left
      intro e _
      exact backfillEntry_idem storyId e
    · simp [h]

/-- C2: a successful add appends exactly one entry whose `order` is the
section's next order — `0` when the section holds no entry, and one more
than the section's maximum `order` (which bounds every stored order in
that section) otherwise; a sequence of adds anchored to one paragraph
realizes `addSeq`, and the orders it assigns are strictly increasing. -/
theorem addImageHere_order_spec (s : Sys) (sid : Int)
    (storyId newId : String) (ps : List (String × String)) :
    (addImageHere (some sid) storyId newId s).1.stored =
      s.stored ++ [⟨newId, some storyId, sid, nextOrder s.stored sid⟩] ∧
    (s.stored.filter (fun e => e.sectionId == sid) = [] →
      nextOrder s.stored sid = 0) ∧
    (∀ m, ((s.stored.filter (fun e => e.sectionId == sid)).map
        Entry.order).max? = some m →
      nextOrder s.stored sid = m + 1 ∧
      ∀ e ∈ s.stored, e.sectionId = sid → e.order ≤ m) ∧
    (runOps s (ps.map (fun p => Op.add (some sid) p.1 p.2))).stored =
      addSeq s.stored sid ps ∧
    (assignedOrders s.stored sid ps).Pairwise (· < ·) := by
  refine ⟨rfl, ?_, ?_, runOps_adds sid ps s, assigned_pairwise sid ps s.stored⟩
  · intro h
    simp [nextOrder, h]
  · intro m hm
    refine ⟨by unfold nextOrder; rw [hm], ?_⟩
    intro e he hs
    exact le_of_mem_max? hm _
      (List.mem_map_of_mem _ (by simp [List.mem_filter, he, hs]))

/-- Witness for C2: two adds onto section 2 of a store already holding
an order-5 entry there assign orders 6 and 7. -/
theorem addImageHere_order_spec_witness :
    (addImageHere (some 2) "s" "x" ⟨[⟨"a", some "s", 2, 5⟩], ⟨[], 0⟩⟩).1.stored =
      [⟨"a", some "s", 2, 5⟩, ⟨"x", some "s", 2, 6⟩] ∧
    assignedOrders [⟨"a", some "s", 2, 5⟩] 2 [("s", "x"), ("s", "y")] = [6, 7] ∧
    (assignedOrders [⟨"a", some "s", 2, 5⟩] 2 [("s", "x"), ("s", "y")]).Pairwise
      (· < ·) := by
  have h := addImageHere_order_spec ⟨[⟨"a", some "s", 2, 5⟩], ⟨[], 0⟩⟩ 2 "s" "x"
    [("s", "x"), ("s", "y")]
  refine ⟨?_, by decide, h.2.2.2.2⟩
  rw [h.1]
  decide

/-- C10: for a stored entry whose anchor paragraph is absent from the
document scan, `getMoveInfo` reports both directions impossible with null
neighbour ids, and `moveEntry` in either direction returns with the state
unchanged and no event (no storage write, no widget disposal or
creation). -/
theorem orphan_entry_move_noop (s : Sys) (sections : List Int)
    (entryId : String) (entry : Entry)
    (hfind : s.stored.find? (fun e => e.id == entryId) = some entry)
    (horphan : entry.sectionId ∉ sections) :
    getMoveInfo sections entry.sectionId = ⟨false, false, none, none⟩ ∧
    (∀ dir, moveEntry entryId dir sections s = (s, [])) := by
  have hidx : sections.findIdx? (fun x => x == entry.sectionId) = none := by
    rw [List.findIdx?_eq_none_iff]
    intro x hx
    simp only [beq_eq_false_iff_ne, ne_eq]
    intro hxe
    exact horphan (hxe ▸ hx)
  have hmi : getMoveInfo sections entry.sectionId = ⟨false, false, none, none⟩ := by
    simp [getMoveInfo, hidx]
  refine ⟨hmi, ?_⟩
  intro dir
  cases dir <;> simp [moveEntry, hfind, hmi, dirTarget]

/-- Witness for C10: an entry anchored at section 5 while the scan is
`[1, 2, 3]`. -/
theorem orphan_entry_move_noop_witness :
    getMoveInfo [1, 2, 3] (Entry.sectionId ⟨"a", some "s", 5, 0⟩) =
      ⟨false, false, none, none⟩ ∧
    (∀ dir, moveEntry "a" dir [1, 2, 3]
        ⟨[⟨"a", some "s", 5, 0⟩], ⟨[("a", 0)], 1⟩⟩ =
      (⟨[⟨"a", some "s", 5, 0⟩], ⟨[("a", 0)], 1⟩⟩, [])) :=
  orphan_entry_move_noop ⟨[⟨"a", some "s", 5, 0⟩], ⟨[("a", 0)], 1⟩⟩ [1, 2, 3]
    "a" ⟨"a", some "s", 5, 0⟩ (by decide) (by decide)

/-- C3: when the moved entry is stored and an adjacent paragraph exists
in the requested direction, `moveEntry` rewrites exactly the entries
bearing that id — keeping the id, re-homing `sectionId` to the adjacent
paragraph found in the scan, and assigning `order` as the target
section's next order (max existing order there plus one, bounding all
existing orders; `0` for an empty target) — leaves every other entry
unchanged, and persists the rewritten list. -/
theorem moveEntry_spec (s : Sys) (entryId : String) (dir : Dir)
    (sections : List Int) (entry : Entry) (t : Int)
    (hfind : s.stored.find? (fun e => e.id == entryId) = some entry)
    (ht : dirTarget dir (getMoveInfo sections entry.sectionId) = some t) :
    (moveEntry entryId dir sections s).1.stored =
      s.stored.map (fun e => if e.id == entryId then
        ⟨entry.id, entry.storyId, t, nextOrder s.stored t⟩ else e) ∧
    entry.id = entryId ∧
    (∀ e ∈ s.stored, e.id ≠ entryId →
      e ∈ (moveEntry entryId dir sections s).1.stored) ∧
    (s.stored.filter (fun e => e.sectionId == t) = [] →
      nextOrder s.stored t = 0) ∧
    (∀ m, ((s.stored.filter (fun e => e.sectionId == t)).map
        Entry.order).max? = some m →
      nextOrder s.stored t = m + 1 ∧
      ∀ e ∈ s.stored, e.sectionId = t → e.order ≤ m) ∧
    (∀ i, sections.findIdx? (fun x => x == entry.sectionId) = some i →
      (dir = .down → sections[i + 1]? = some t) ∧
      (dir = .up → 0 < i ∧ sections[i - 1]? = some t)) ∧
    Event.setEntries ((moveEntry entryId dir sections s).1.stored) ∈
      (moveEntry entryId dir sections s).2 := by
  have hupd : ({ entry with sectionId := t, order := nextOrder s.stored t } : Entry) =
      ⟨entry.id, entry.storyId, t, nextOrder s.stored t⟩ := rfl
  have hstored : (moveEntry entryId dir sections s).1.stored =
      s.stored.map (fun e => if e.id == entryId then
        ⟨entry.id, entry.storyId, t, nextOrder s.stored t⟩ else e) := by
    cases hmg : mapGet s.w.handles entryId with
    | none => simp [moveEntry, hfind, ht, hmg]
    | some h => simp [moveEntry, hfind, ht, hmg]
  have hid : entry.id = entryId := by
    have := List.find?_some hfind
    simpa using this
  refine ⟨hstored, hid, ?_, (nextOrder_spec s.stored t).1,
    (nextOrder_spec s.stored t).2, ?_, ?_⟩
  · intro e he hne
    rw [hstored]
    have : (fun e : Entry => if e.id == entryId then
        (⟨entry.id, entry.storyId, t, nextOrder s.stored t⟩ : Entry) else e) e = e := by
      simp [hne]
    exact this ▸ List.mem_map_of_mem _ he
  · intro i hi
    simp only [getMoveInfo, hi] at ht
    constructor
    · intro hdir
      subst hdir
      simp only [dirTarget] at ht
      by_cases hlt : i < sections.length - 1
      · rw [if_pos hlt] at ht
        exact ht
      · rw [if_neg hlt] at ht
        cases ht
    · intro hdir
      subst hdir
      simp only [dirTarget] at ht
      by_cases hlt : 0 < i
      · rw [if_pos hlt] at ht
        exact ⟨hlt, ht⟩
      · rw [if_neg hlt] at ht
        cases ht
  · cases hmg : mapGet s.w.handles entryId with
    | none => simp [moveEntry, hfind, ht, hmg]
    | some h => simp [moveEntry, hfind, ht, hmg]

/-- Witness for C3, realizing the spec's scenario: document `[1, 2, 3]`,
a slot on paragraph 2 moved down lands on paragraph 3 with order one
past the existing order-4 slot there. -/
theorem moveEntry_spec_witness :
    (moveEntry "a" .down [1, 2, 3]
        ⟨[⟨"a", some "s", 2, 0⟩, ⟨"b", some "s", 3, 4⟩], ⟨[], 0⟩⟩).1.stored =
      [⟨"a", some "s", 3, 5⟩, ⟨"b", some "s", 3, 4⟩] := by
  have h := moveEntry_spec
    ⟨[⟨"a", some "s", 2, 0⟩, ⟨"b", some "s", 3, 4⟩], ⟨[], 0⟩⟩ "a" .down
    [1, 2, 3] ⟨"a", some "s", 2, 0⟩ 3 (by decide) (by decide)
  rw [h.1]
  decide

/-- C9 counterexample: `uid()` is `Math.random().toString(36).slice(2, 10)`
with no collision check against stored ids, so a run in which the
generator returns the same token twice — here two adds both consuming
uid output `"a"` — reaches a stored list whose ids are not pairwise
distinct. -/
theorem uid_collision_duplicates_ids :
    ¬ (((runOps initSys
        [Op.add (some 1) "s" "a", Op.add (some 1) "s" "a"]).stored.map
      Entry.id).Nodup) := by
  decide

/-- C9 (amended): starting from the empty store, any sequence of
`addImageHere`, `removeEntry`, `moveEntry` and `clearEntries` operations
in which every consumed `uid()` output is distinct from the ids stored
at that moment reaches only states whose entry ids are pairwise
distinct. -/
theorem reachable_ids_nodup (ops : List Op)
    (h : freshIds initSys ops = true) :
    (((runOps initSys ops).stored).map Entry.id).Nodup :=
  freshIds_nodup ops initSys (by simp [initSys]) h

/-- Witness for C9: a run of two adds, a move and a remove with fresh
uids keeps ids pairwise distinct. -/
theorem reachable_ids_nodup_witness :
    freshIds initSys
      [Op.add (some 1) "s" "a", Op.add (some 1) "s" "b",
       Op.move "a" .down [1, 2], Op.remove "b"] = true ∧
    (((runOps initSys
        [Op.add (some 1) "s" "a", Op.add (some 1) "s" "b",
         Op.move "a" .down [1, 2], Op.remove "b"]).stored).map
      Entry.id).Nodup :=
  ⟨by decide, reachable_ids_nodup _ (by decide)⟩

/-- C1: after `syncWidgets`, every handle whose entry id is no longer
stored has been disposed and is gone from the map, every stored entry
whose id had no handle got a freshly created widget put in the map, every
handle whose id is still stored is untouched (same handle value), and the
map's key set equals the set of stored entry ids. -/
theorem syncWidgets_spec (s : Sys)
    (hnd : (s.stored.map Entry.id).Nodup)
    (hw : (s.w.handles.map Prod.fst).Nodup) :
    (syncWidgets s).1.stored = s.stored ∧
    (∀ p ∈ s.w.handles, p.1 ∉ s.stored.map Entry.id →
      Event.dispose p.2 ∈ (syncWidgets s).2 ∧
      mapGet (syncWidgets s).1.w.handles p.1 = none) ∧
    (∀ p ∈ s.w.handles, p.1 ∈ s.stored.map Entry.id →
      mapGet (syncWidgets s).1.w.handles p.1 = some p.2) ∧
    (∀ e ∈ s.stored, mapGet s.w.handles e.id = none →
      ∃ v, mapGet (syncWidgets s).1.w.handles e.id = some v ∧
        Event.create e v ∈ (syncWidgets s).2 ∧ s.w.nextHandle ≤ v) ∧
    (∀ k, (mapGet (syncWidgets s).1.w.handles k).isSome = true ↔
      k ∈ s.stored.map Entry.id) := by
  have hh : (syncWidgets s).1.w.handles =
      (syncCreatePhase s.stored
        ⟨(syncDisposePhase (s.stored.map Entry.id) s.w.handles).1,
         s.w.nextHandle⟩).1.handles := rfl
  have hev : (syncWidgets s).2 =
      (syncDisposePhase (s.stored.map Entry.id) s.w.handles).2 ++
      (syncCreatePhase s.stored
        ⟨(syncDisposePhase (s.stored.map Entry.id) s.w.handles).1,
         s.w.nextHandle⟩).2 := rfl
  have hm1 : (syncDisposePhase (s.stored.map Entry.id) s.w.handles).1 =
      s.w.handles.filter (fun p => (s.stored.map Entry.id).contains p.1) :=
    syncDisposePhase_fst _ _
  refine ⟨rfl, ?_, ?_, ?_, ?_⟩
  · intro p hp hpn
    constructor
    · rw [hev]
      exact List.mem_append_left _ (syncDisposePhase_dispose _ _ p hp hpn)
    · rw [hh]
      refine syncCreatePhase_none s.stored _ p.1 ?_ hpn
      show mapGet (syncDisposePhase (s.stored.map Entry.id) s.w.handles).1 p.1 = none
      rw [hm1]
      exact mapGet_filter_dropped _ _ _ hpn
  · intro p hp hpm
    rw [hh]
    refine syncCreatePhase_preserves s.stored _ p.1 p.2 ?_
    show mapGet (syncDisposePhase (s.stored.map Entry.id) s.w.handles).1 p.1 = some p.2
    rw [hm1, mapGet_filter_kept _ _ _ hpm]
    exact mapGet_of_mem_nodup hw hp
  · intro e he hen
    have h1 : mapGet (syncDisposePhase (s.stored.map Entry.id) s.w.handles).1
        e.id = none := by
      rw [hm1, mapGet_filter_kept _ _ _ (List.mem_map_of_mem Entry.id he)]
      exact hen
    obtain ⟨v, hv1, hv2, hv3⟩ :=
      syncCreatePhase_creates s.stored
        ⟨(syncDisposePhase (s.stored.map Entry.id) s.w.handles).1,
         s.w.nextHandle⟩ hnd e he h1
    refine ⟨v, ?_, ?_, hv3⟩
    · rw [hh]
      exact hv1
    · rw [hev]
      exact List.mem_append_right _ hv2
  · intro k
    constructor
    · intro hks
      by_contra hkn
      have h1 : mapGet (syncDisposePhase (s.stored.map Entry.id) s.w.handles).1
          k = none := by
        rw [hm1]
        exact mapGet_filter_dropped _ _ _ hkn
      have h2 := syncCreatePhase_none s.stored
        ⟨(syncDisposePhase (s.stored.map Entry.id) s.w.handles).1,
         s.w.nextHandle⟩ k h1 hkn
      rw [hh] at hks
      rw [h2] at hks
      cases hks
    · intro hkm
      obtain ⟨e, he, hek⟩ := List.mem_map.mp hkm
      obtain ⟨v, hv⟩ := syncCreatePhase_covers s.stored
        ⟨(syncDisposePhase (s.stored.map Entry.id) s.w.handles).1,
         s.w.nextHandle⟩ e he
      rw [hh, ← hek, hv]
      rfl

/-- Witness for C1: two stored entries, one stale handle `"z"` (disposed)
and one kept handle `"a"`; a widget is created for `"b"`. -/
theorem syncWidgets_spec_witness :
    (syncWidgets ⟨[⟨"a", some "s", 1, 0⟩, ⟨"b", some "s", 2, 0⟩],
        ⟨[("a", 0), ("z", 1)], 2⟩⟩).1.stored =
      [⟨"a", some "s", 1, 0⟩, ⟨"b", some "s", 2, 0⟩] ∧
    (∀ p ∈ [(("a" : String), 0), ("z", 1)],
      p.1 ∉ [⟨"a", some "s", 1, 0⟩, ⟨"b", some "s", 2, 0⟩].map Entry.id →
      Event.dispose p.2 ∈
        (syncWidgets ⟨[⟨"a", some "s", 1, 0⟩, ⟨"b", some "s", 2, 0⟩],
          ⟨[("a", 0), ("z", 1)], 2⟩⟩).2 ∧
      mapGet (syncWidgets ⟨[⟨"a", some "s", 1, 0⟩, ⟨"b", some "s", 2, 0⟩],
          ⟨[("a", 0), ("z", 1)], 2⟩⟩).1.w.handles p.1 = none) ∧
    (∀ p ∈ [(("a" : String), 0), ("z", 1)],
      p.1 ∈ [⟨"a", some "s", 1, 0⟩, ⟨"b", some "s", 2, 0⟩].map Entry.id →
      mapGet (syncWidgets ⟨[⟨"a", some "s", 1, 0⟩, ⟨"b", some "s", 2, 0⟩],
          ⟨[("a", 0), ("z", 1)], 2⟩⟩).1.w.handles p.1 = some p.2) ∧
    (∀ e ∈ [⟨"a", some "s", 1, 0⟩, ⟨"b", some "s", 2, 0⟩],
      mapGet [(("a" : String), 0), ("z", 1)] e.id = none →
      ∃ v, mapGet (syncWidgets ⟨[⟨"a", some "s", 1, 0⟩, ⟨"b", some "s", 2, 0⟩],
          ⟨[("a", 0), ("z", 1)], 2⟩⟩).1.w.handles e.id = some v ∧
        Event.create e v ∈
          (syncWidgets ⟨[⟨"a", some "s", 1, 0⟩, ⟨"b", some "s", 2, 0⟩],
            ⟨[("a", 0), ("z", 1)], 2⟩⟩).2 ∧ 2 ≤ v) ∧
    (∀ k, (mapGet (syncWidgets ⟨[⟨"a", some "s", 1, 0⟩, ⟨"b", some "s", 2, 0⟩],
        ⟨[("a", 0), ("z", 1)], 2⟩⟩).1.w.handles k).isSome = true ↔
      k ∈ [⟨"a", some "s", 1, 0⟩, ⟨"b", some "s", 2, 0⟩].map Entry.id) :=
  syncWidgets_spec ⟨[⟨"a", some "s", 1, 0⟩, ⟨"b", some "s", 2, 0⟩],
    ⟨[("a", 0), ("z", 1)], 2⟩⟩ (by decide) (by decide)

/-- C4: `getOrderedEntries` permutes the entry list into an order that is
sorted by the comparator key — paragraph rank from the fresh scan first
(entries on paragraphs earlier in a duplicate-free scan precede those on
later paragraphs), then ascending `order` on the same paragraph — with
entries whose section is absent from the scan after all entries whose
section is present, and the sort is stable: entries tied on the full key
keep their original relative order. -/
theorem getOrderedEntries_spec (sections : List Int) (entries : List Entry)
    (hlen : sections.length ≤ maxSafeInteger) :
    (getOrderedEntries sections entries).Perm entries ∧
    (getOrderedEntries sections entries).Pairwise (fun a b =>
      sectionRank sections a.sectionId < sectionRank sections b.sectionId ∨
      (sectionRank sections a.sectionId = sectionRank sections b.sectionId ∧
        a.order ≤ b.order)) ∧
    (getOrderedEntries sections entries).Pairwise (fun a b =>
      a.sectionId = b.sectionId → a.order ≤ b.order) ∧
    (getOrderedEntries sections entries).Pairwise (fun a b =>
      a.sectionId ∉ sections → b.sectionId ∉ sections) ∧
    (getOrderedEntries sections entries).Pairwise (fun a b =>
      sections.Nodup →
      ∀ (i j : Nat) (hi : i < sections.length) (hj : j < sections.length),
        sections.get ⟨i, hi⟩ = a.sectionId →
        sections.get ⟨j, hj⟩ = b.sectionId → i ≤ j) ∧
    (∀ a b, List.Sublist [a, b] entries →
      sectionRank sections a.sectionId = sectionRank sections b.sectionId →
      a.order = b.order → List.Sublist [a, b] (getOrderedEntries sections entries)) := by
  have htrans : ∀ (a b c : Entry), entryLE sections a b → entryLE sections b c →
      entryLE sections a c :=
    fun a b c h1 h2 => entryLE_trans sections a b c h1 h2
  have htotal : ∀ (a b : Entry), (entryLE sections a b || entryLE sections b a) = true :=
    fun a b => entryLE_total sections a b
  have hsorted : (getOrderedEntries sections entries).Pairwise
      (fun a b => entryLE sections a b = true) :=
    List.sorted_mergeSort htrans htotal entries
  have hkey : (getOrderedEntries sections entries).Pairwise (fun a b =>
      sectionRank sections a.sectionId < sectionRank sections b.sectionId ∨
      (sectionRank sections a.sectionId = sectionRank sections b.sectionId ∧
        a.order ≤ b.order)) :=
    hsorted.imp (fun hab => (entryLE_iff sections _ _).mp hab)
  refine ⟨List.mergeSort_perm entries (entryLE sections), hkey, ?_, ?_, ?_, ?_⟩
  · refine hkey.imp (fun hab hsec => ?_)
    rcases hab with hlt | ⟨_, hle⟩
    · rw [hsec] at hlt
      exact absurd hlt (lt_irrefl _)
    · exact hle
  · refine hkey.imp (fun hab ha => ?_)
    by_contra hbmem
    have hbr := (sectionRank_mem sections _ (not_not.mp (by simpa using hbmem))).1
    have har := sectionRank_not_mem sections _ ha
    rcases hab with hlt | ⟨heq, _⟩ <;> omega
  · refine hkey.imp (fun hab hndp i j hi hj hia hjb => ?_)
    rename_i a b
    have hamem : a.sectionId ∈ sections := hia ▸ List.get_mem sections i hi
    have hbmem : b.sectionId ∈ sections := hjb ▸ List.get_mem sections j hj
    obtain ⟨hra, hga⟩ := sectionRank_mem sections a.sectionId hamem
    obtain ⟨hrb, hgb⟩ := sectionRank_mem sections b.sectionId hbmem
    have hga2 : sections.get ⟨sectionRank sections a.sectionId, hra⟩ =
        a.sectionId := by
      rw [List.getElem?_eq_getElem hra] at hga
      simpa using Option.some.inj hga
    have hgb2 : sections.get ⟨sectionRank sections b.sectionId, hrb⟩ =
        b.sectionId := by
      rw [List.getElem?_eq_getElem hrb] at hgb
      simpa using Option.some.inj hgb
    have hfa : (⟨sectionRank sections a.sectionId, hra⟩ : Fin sections.length) =
        ⟨i, hi⟩ := hndp.get_inj_iff.mp (by rw [hga2, hia])
    have hfb : (⟨sectionRank sections b.sectionId, hrb⟩ : Fin sections.length) =
        ⟨j, hj⟩ := hndp.get_inj_iff.mp (by rw [hgb2, hjb])
    have hri : sectionRank sections a.sectionId = i := by
      simpa using congrArg Fin.val hfa
    have hrj : sectionRank sections b.sectionId = j := by
      simpa using congrArg Fin.val hfb
    rcases hab with hlt | ⟨heq, _⟩ <;> omega
  · intro a b hsub heq horder
    exact List.pair_sublist_mergeSort htrans htotal
      ((entryLE_iff sections a b).mpr (Or.inr ⟨heq, le_of_eq horder⟩)) hsub

/-- Witness for C4: with scan `[10, 20]`, an orphan (section 99) sorts
last, sections follow scan order, and equal sections sort by `order`. -/
theorem getOrderedEntries_spec_witness :
    ([10, 20] : List Int).length ≤ maxSafeInteger ∧
    getOrderedEntries [10, 20]
      [⟨"c", some "s", 99, 0⟩, ⟨"a", some "s", 20, 1⟩,
       ⟨"b", some "s", 10, 0⟩, ⟨"d", some "s", 20, 0⟩] =
      [⟨"b", some "s", 10, 0⟩, ⟨"d", some "s", 20, 0⟩,
       ⟨"a", some "s", 20, 1⟩, ⟨"c", some "s", 99, 0⟩] ∧
    (getOrderedEntries [10, 20]
      [⟨"c", some "s", 99, 0⟩, ⟨"a", some "s", 20, 1⟩,
       ⟨"b", some "s", 10, 0⟩, ⟨"d", some "s", 20, 0⟩]).Perm
      [⟨"c", some "s", 99, 0⟩, ⟨"a", some "s", 20, 1⟩,
       ⟨"b", some "s", 10, 0⟩, ⟨"d", some "s", 20, 0⟩] := by
  refine ⟨by decide, ?_, (getOrderedEntries_spec [10, 20]
    [⟨"c", some "s", 99, 0⟩, ⟨"a", some "s", 20, 1⟩,
     ⟨"b", some "s", 10, 0⟩, ⟨"d", some "s", 20, 0⟩] (by decide)).1⟩
  simp +decide [getOrderedEntries, List.mergeSort, entryLE, sectionRank,
    buildSectionIndex, buildSectionIndexFrom, mapSet, mapGet, maxSafeInteger]

/-- Witness for C8 at a concrete store where one entry lacks a storyId. -/
theorem storage_roundTrip_spec_witness :
    decodeStore (roundTripPlain (some [⟨"a", none, 1, 0⟩])) =
      decodeStore (some [⟨"a", none, 1, 0⟩]) ∧
    decodeStore (roundTripBackfill (some [⟨"a", none, 1, 0⟩]) "st") =
      (decodeStore (some [⟨"a", none, 1, 0⟩])).map (backfillEntry "st") ∧
    ((decodeStore (some [⟨"a", none, 1, 0⟩])).all (fun e => !(storyIdFalsy e)) = true →
      decodeStore (roundTripBackfill (some [⟨"a", none, 1, 0⟩]) "st") =
        decodeStore (some [⟨"a", none, 1, 0⟩])) ∧
    decodeStore (roundTripBackfill (roundTripBackfill (some [⟨"a", none, 1, 0⟩]) "st") "st") =
      decodeStore (roundTripBackfill (some [⟨"a", none, 1, 0⟩]) "st") :=
  storage_roundTrip_spec (some [⟨"a", none, 1, 0⟩]) "st"

end Pixu
